import Mathlib

/-!
Shallow embedding of the ChatGalaxy WebSocket connection/session management layer.

Two overlapping implementations exist in the repository and both are embedded here:
* `backend/app/services/websocket_service.py` (`WebSocketService`, `WebSocketConnection`)
  as the `Ws*` definitions, and
* `backend/app/websocket/manager.py` (`ConnectionManager`) as the `Mgr*` definitions.

Python dictionaries are embedded as association lists (`MapL`), Python sets of
connection identifiers as duplicate-free lists (`SetL`).  The WebSocket transport is
abstracted by a predicate `tr : String → Bool` giving, per connection identifier,
whether a transport-level send to that socket succeeds; an embedded send returns the
updated state together with the delivery outcome that the Python code observes via
return values and caught exceptions.
-/

/-- A Python `set` of strings, kept as a duplicate-free list. -/
abbrev SetL := List String

/-- Python `set.add`: insert the element if absent. -/
def insertS (s : SetL) (x : String) : SetL :=
  if x ∈ s then s else x :: s

/-- Python `set.discard`: remove the element.  On the duplicate-free lists this
embedding builds, removing every copy coincides with discarding the element. -/
def eraseS : SetL → String → SetL
  | [], _ => []
  | y :: rest, x => if y = x then eraseS rest x else y :: eraseS rest x

/-- A Python `dict` keyed by strings, as an association list. -/
abbrev MapL (α : Type) := List (String × α)

/-- Python `dict.get`. -/
def lookupM {α : Type} (m : MapL α) (k : String) : Option α :=
  match m with
  | [] => none
  | (k', v) :: rest => if k' = k then some v else lookupM rest k

/-- Python `d[k] = v`: replace the value in place if the key is present, else append. -/
def insertM {α : Type} (m : MapL α) (k : String) (v : α) : MapL α :=
  match m with
  | [] => [(k, v)]
  | (k', v') :: rest => if k' = k then (k, v) :: rest else (k', v') :: insertM rest k v

/-- Python `del d[k]` / `d.pop(k, None)`. -/
def eraseM {α : Type} : MapL α → String → MapL α
  | [], _ => []
  | (k', v) :: rest, k => if k' = k then eraseM rest k else (k', v) :: eraseM rest k

/-- The idiom `if k in d: d[k].discard(x); if not d[k]: del d[k]`, shared by both
implementations for maintaining their identifier-set indices. -/
def removeFromSetEntry (m : MapL SetL) (k x : String) : MapL SetL :=
  match lookupM m k with
  | none => m
  | some s =>
    let s' := eraseS s x
    if s' = [] then eraseM m k else insertM m k s'

theorem mem_insertS_self (s : SetL) (x : String) : x ∈ insertS s x := by
  unfold insertS; split <;> simp_all

theorem mem_insertS (s : SetL) (x y : String) (h : y ∈ insertS s x) : y = x ∨ y ∈ s := by
  unfold insertS at h; split at h <;> simp_all

theorem mem_insertS_of_mem (s : SetL) (x y : String) (h : y ∈ s) : y ∈ insertS s x := by
  unfold insertS; split <;> simp_all

theorem not_mem_eraseS_self (s : SetL) (x : String) : x ∉ eraseS s x := by
  induction s with
  | nil => simp [eraseS]
  | cons a rest ih =>
    unfold eraseS
    by_cases h : a = x
    · simpa [h] using ih
    · simp [h, ih]
      intro hc
      exact absurd hc.symm h

theorem mem_eraseS (s : SetL) (x y : String) (h : y ∈ eraseS s x) : y ∈ s := by
  induction s with
  | nil => simp [eraseS] at h
  | cons a rest ih =>
    unfold eraseS at h
    by_cases ha : a = x
    · simp only [ha, if_pos rfl] at h
      exact List.mem_cons_of_mem _ (ih h)
    · simp only [ha, if_false, List.mem_cons] at h
      rcases h with h | h
      · exact h ▸ List.mem_cons_self _ _
      · exact List.mem_cons_of_mem _ (ih h)

theorem eraseS_of_not_mem (s : SetL) (x : String) (h : x ∉ s) : eraseS s x = s := by
  induction s with
  | nil => rfl
  | cons a rest ih =>
    simp only [List.mem_cons, not_or] at h
    have ha : ¬ (a = x) := fun hc => h.1 hc.symm
    unfold eraseS
    simp [ha, ih h.2]

theorem eraseS_idem (s : SetL) (x : String) : eraseS (eraseS s x) x = eraseS s x :=
  eraseS_of_not_mem _ _ (not_mem_eraseS_self s x)

theorem lookupM_insertM_self {α : Type} (m : MapL α) (k : String) (v : α) :
    lookupM (insertM m k v) k = some v := by
  induction m with
  | nil => simp [insertM, lookupM]
  | cons p rest ih =>
    unfold insertM
    by_cases h : p.1 = k
    · simp [h, lookupM]
    · simp [h, lookupM, ih]

theorem lookupM_insertM_ne {α : Type} (m : MapL α) (k k' : String) (v : α) (h : k' ≠ k) :
    lookupM (insertM m k v) k' = lookupM m k' := by
  induction m with
  | nil =>
    have hk : ¬ (k = k') := fun hc => h hc.symm
    simp [insertM, lookupM, hk]
  | cons p rest ih =>
    obtain ⟨a, b⟩ := p
    simp only [insertM, lookupM]
    by_cases hp : a = k
    · have hk : ¬ (k = k') := fun hc => h hc.symm
      have ha : ¬ (a = k') := fun hc => hk (hp ▸ hc)
      rw [if_pos hp]
      simp only [lookupM]
      rw [if_neg hk, if_neg ha]
    · rw [if_neg hp]
      simp only [lookupM]
      by_cases hk' : a = k'
      · rw [if_pos hk', if_pos hk']
      · rw [if_neg hk', if_neg hk', ih]

theorem lookupM_eraseM_self {α : Type} (m : MapL α) (k : String) :
    lookupM (eraseM m k) k = none := by
  induction m with
  | nil => rfl
  | cons p rest ih =>
    obtain ⟨a, b⟩ := p
    simp only [eraseM]
    by_cases hp : a = k
    · rw [if_pos hp]; exact ih
    · rw [if_neg hp]
      simp only [lookupM]
      rw [if_neg hp]
      exact ih

theorem lookupM_eraseM_ne {α : Type} (m : MapL α) (k k' : String) (h : k' ≠ k) :
    lookupM (eraseM m k) k' = lookupM m k' := by
  induction m with
  | nil => rfl
  | cons p rest ih =>
    obtain ⟨a, b⟩ := p
    simp only [eraseM]
    by_cases hp : a = k
    · have ha : ¬ (a = k') := fun hc => h (hc ▸ hp)
      rw [if_pos hp, ih]
      simp only [lookupM]
      rw [if_neg ha]
    · rw [if_neg hp]
      simp only [lookupM]
      by_cases hk' : a = k'
      · rw [if_pos hk', if_pos hk']
      · rw [if_neg hk', if_neg hk', ih]

theorem lookupM_mem {α : Type} (m : MapL α) (k : String) (v : α)
    (h : lookupM m k = some v) : (k, v) ∈ m := by
  induction m with
  | nil => simp [lookupM] at h
  | cons p rest ih =>
    obtain ⟨a, b⟩ := p
    simp only [lookupM] at h
    by_cases hp : a = k
    · rw [if_pos hp] at h
      obtain rfl : b = v := Option.some.inj h
      subst hp
      exact List.mem_cons_self _ _
    · rw [if_neg hp] at h
      exact List.mem_cons_of_mem _ (ih h)

theorem removeFromSetEntry_of_none (m : MapL SetL) (k x : String)
    (hl : lookupM m k = none) : removeFromSetEntry m k x = m := by
  unfold removeFromSetEntry; rw [hl]

theorem removeFromSetEntry_of_some (m : MapL SetL) (k x : String) (s : SetL)
    (hl : lookupM m k = some s) :
    removeFromSetEntry m k x =
      (if eraseS s x = [] then eraseM m k else insertM m k (eraseS s x)) := by
  unfold removeFromSetEntry; rw [hl]

theorem lookupM_removeFromSetEntry_self (m : MapL SetL) (k x : String) (s' : SetL)
    (h : lookupM (removeFromSetEntry m k x) k = some s') : x ∉ s' := by
  cases hl : lookupM m k with
  | none =>
    rw [removeFromSetEntry_of_none m k x hl, hl] at h
    exact absurd h (by simp)
  | some s =>
    rw [removeFromSetEntry_of_some m k x s hl] at h
    by_cases he : eraseS s x = []
    · rw [if_pos he, lookupM_eraseM_self] at h
      exact absurd h (by simp)
    · rw [if_neg he, lookupM_insertM_self] at h
      obtain rfl : eraseS s x = s' := Option.some.inj h
      exact not_mem_eraseS_self s x

theorem lookupM_removeFromSetEntry_ne (m : MapL SetL) (k k' x : String) (h : k' ≠ k) :
    lookupM (removeFromSetEntry m k x) k' = lookupM m k' := by
  cases hl : lookupM m k with
  | none => rw [removeFromSetEntry_of_none m k x hl]
  | some s =>
    rw [removeFromSetEntry_of_some m k x s hl]
    by_cases he : eraseS s x = []
    · rw [if_pos he, lookupM_eraseM_ne _ _ _ h]
    · rw [if_neg he, lookupM_insertM_ne _ _ _ _ h]

theorem mem_lookupM_removeFromSetEntry (m : MapL SetL) (k k' x y : String) (s' : SetL)
    (h : lookupM (removeFromSetEntry m k x) k' = some s') (hy : y ∈ s') :
    ∃ s, lookupM m k' = some s ∧ y ∈ s := by
  by_cases hk : k' = k
  · subst hk
    cases hl : lookupM m k' with
    | none =>
      rw [removeFromSetEntry_of_none m k' x hl, hl] at h
      exact absurd h (by simp)
    | some s =>
      rw [removeFromSetEntry_of_some m k' x s hl] at h
      by_cases he : eraseS s x = []
      · rw [if_pos he, lookupM_eraseM_self] at h
        exact absurd h (by simp)
      · rw [if_neg he, lookupM_insertM_self] at h
        obtain rfl : eraseS s x = s' := Option.some.inj h
        exact ⟨s, rfl, mem_eraseS _ _ _ hy⟩
  · rw [lookupM_removeFromSetEntry_ne _ _ _ _ hk] at h
    exact ⟨s', h, hy⟩

/-! ## Embedding of `WebSocketService` (`backend/app/services/websocket_service.py`) -/

/-- `WebSocketConnection` (websocket_service.py lines 58-126): the per-connection
state visible to the registry.  The socket handle itself is abstracted away; the
transport predicate `tr` stands for its behaviour. -/
structure WSConn where
  userId : Option String
  sessionToken : Option String
  lastPing : Nat
  isActive : Bool
  subscribedSessions : SetL
  deriving Repr, DecidableEq

/-- The mutable state of `WebSocketService` (lines 153-155): `connections`,
`user_connections` and `session_connections`. -/
structure WsState where
  connections : MapL WSConn
  userConnections : MapL SetL
  sessionConnections : MapL SetL
  deriving Repr, DecidableEq

/-- The outbound event vocabulary of the service (`MessageType` values actually sent),
with the payload fields the claims are about. -/
inductive OutMsg where
  | connectAck
  | pong
  | chatStream (sessionId content : String) (isComplete hasError : Bool)
  | chatResponse (sessionId content : String)
  | chatError (err : String)
  | sessionCreated (sessionId : String)
  | sessionUpdated (sessionId : String)
  | sessionDeleted (sessionId : String)
  | errorMsg (err : String)
  deriving Repr, DecidableEq

/-- `WebSocketConnection.send_message` (lines 93-110) on the connection object
registered under `cid`: an active connection attempts the transport send and returns
`true` on success; a transport failure is caught, marks the connection inactive and
returns `false`; an inactive connection returns `false` without touching the socket. -/
def wsSend (tr : String → Bool) (st : WsState) (cid : String) : WsState × Bool :=
  match lookupM st.connections cid with
  | none => (st, false)
  | some c =>
    if c.isActive then
      if tr cid then (st, true)
      else ({ st with connections := insertM st.connections cid { c with isActive := false } },
            false)
    else (st, false)

/-- `WebSocketService.subscribe_session` (lines 354-387): unknown connections fail
with `false`; otherwise the identifier is added to the session's subscriber set
(creating the entry on demand) and the session to the connection's subscription set. -/
def subscribeSession (st : WsState) (cid sid : String) : WsState × Bool :=
  match lookupM st.connections cid with
  | none => (st, false)
  | some c =>
    let s := (lookupM st.sessionConnections sid).getD []
    let sc := insertM st.sessionConnections sid (insertS s cid)
    let conns :=
      insertM st.connections cid
        { c with subscribedSessions := insertS c.subscribedSessions sid }
    ({ st with sessionConnections := sc, connections := conns }, true)

/-- `WebSocketService.unsubscribe_session` (lines 389-423): unknown connections fail
with `false`; otherwise the identifier is discarded from the session's subscriber set
(dropping the entry when it empties) and the session from the connection's set. -/
def unsubscribeSession (st : WsState) (cid sid : String) : WsState × Bool :=
  match lookupM st.connections cid with
  | none => (st, false)
  | some c =>
    let sc := removeFromSetEntry st.sessionConnections sid cid
    let conns :=
      insertM st.connections cid
        { c with subscribedSessions := eraseS c.subscribedSessions sid }
    ({ st with sessionConnections := sc, connections := conns }, true)

/-- `WebSocketService.disconnect` (lines 276-312): remove the identifier from its
user's entry in the user index and from every session it subscribed (dropping entries
that empty), close the socket, and delete the registry entry; an unknown identifier
is a no-op. -/
def wsDisconnect (st : WsState) (cid : String) : WsState :=
  match lookupM st.connections cid with
  | none => st
  | some c =>
    let uc :=
      match c.userId with
      | none => st.userConnections
      | some u => removeFromSetEntry st.userConnections u cid
    let sc :=
      c.subscribedSessions.foldl (fun m sid => removeFromSetEntry m sid cid)
        st.sessionConnections
    { connections := eraseM st.connections cid, userConnections := uc,
      sessionConnections := sc }

/-- The loop body of `WebSocketService.broadcast_to_session` (lines 442-448): skip
`exclude`, look the subscriber up, and send when registered and active; a delivered
message is recorded in the trace. -/
def broadcastStep (tr : String → Bool) (msg : OutMsg) (exclude : Option String)
    (acc : WsState × List (String × OutMsg)) (cid : String) :
    WsState × List (String × OutMsg) :=
  if exclude = some cid then acc
  else
    match lookupM acc.1.connections cid with
    | none => acc
    | some c =>
      if c.isActive then
        let r := wsSend tr acc.1 cid
        (r.1, acc.2 ++ if r.2 then [(cid, msg)] else [])
      else acc

/-- `WebSocketService.broadcast_to_session` (lines 425-451): send the message to each
subscriber of the session that is registered and active, skipping `exclude`; the
returned trace lists the recipients to which the transport delivered the message. -/
def broadcastToSession (tr : String → Bool) (st : WsState) (sid : String) (msg : OutMsg)
    (exclude : Option String) : WsState × List (String × OutMsg) :=
  let cids := (lookupM st.sessionConnections sid).getD []
  cids.foldl (broadcastStep tr msg exclude) (st, [])

/-- One chunk yielded by `chat_service.stream_message`: `has_error` marks the
error-text chunk that the collaborator yields from its `except` clause before
re-raising. -/
structure StreamChunk where
  content : String
  isComplete : Bool
  hasError : Bool
  deriving Repr, DecidableEq

/-- The behaviour of the Chat Collaborator call for one turn, as observed by
`_handle_chat_message`: a complete reply, a raise before any reply, or (stream mode)
a sequence of yielded chunks optionally followed by a propagated raise.  The
collaborator is external to this core, so its behaviour is threaded as data. -/
inductive CollabResult where
  | respOk (content : String)
  | respErr (err : String)
  | streamRun (chunks : List StreamChunk) (raised : Option String)
  deriving Repr, DecidableEq

/-- The `chat_stream` frame built for one yielded chunk (lines 520-530). -/
def streamMsg (sid : String) (ch : StreamChunk) : OutMsg :=
  .chatStream sid ch.content ch.isComplete ch.hasError

/-- One iteration of the `async for` in the stream branch of
`_handle_chat_message` (lines 514-535): broadcast the yielded chunk to the session
with no exclusion, accumulating the delivery trace. -/
def streamStep (tr : String → Bool) (sid : String)
    (acc : WsState × List (String × OutMsg)) (ch : StreamChunk) :
    WsState × List (String × OutMsg) :=
  let r := broadcastToSession tr acc.1 sid (streamMsg sid ch) none
  (r.1, acc.2 ++ r.2)

/-- `WebSocketService._handle_chat_message` (lines 490-571): subscribe the sender to
the message's session, then broadcast the collaborator's reply (or each streamed
chunk, as yielded) to the whole session with no exclusion; a raise escaping the
collaborator call is caught and answered by a `chat_error` sent to the sender only. -/
def handleChatMessage (tr : String → Bool) (st : WsState) (cid sid : String)
    (res : CollabResult) : WsState × List (String × OutMsg) :=
  let st1 := (subscribeSession st cid sid).1
  match res with
  | .respOk content => broadcastToSession tr st1 sid (.chatResponse sid content) none
  | .respErr e =>
    let r := wsSend tr st1 cid
    (r.1, if r.2 then [(cid, .chatError e)] else [])
  | .streamRun chunks raised =>
    let bc := chunks.foldl (streamStep tr sid) (st1, [])
    match raised with
    | none => bc
    | some e =>
      let r := wsSend tr bc.1 cid
      (r.1, bc.2 ++ if r.2 then [(cid, .chatError e)] else [])

/-- The fixed unicast error text of `_handle_session_update` ("会话更新失败"),
abstracted to an opaque English marker. -/
def updateFailedText : String := "session update failed"

/-- The fixed unicast error text of `_handle_session_delete` ("会话删除失败"). -/
def deleteFailedText : String := "session delete failed"

/-- The unknown-message-type reply text of `handle_message`. -/
def unknownTypeText : String := "Unknown message type"

/-- `WebSocketService._handle_ping` (lines 477-488): refresh `last_ping` and answer
with a `pong`. -/
def handlePing (tr : String → Bool) (now : Nat) (st : WsState) (cid : String) :
    WsState × List (String × OutMsg) :=
  match lookupM st.connections cid with
  | none => (st, [])
  | some c =>
    let st1 := { st with connections := insertM st.connections cid { c with lastPing := now } }
    let r := wsSend tr st1 cid
    (r.1, if r.2 then [(cid, .pong)] else [])

/-- `WebSocketService._handle_session_create` (lines 573-625): on a successful
collaborator call, subscribe the creator to the new session and acknowledge to the
creator only; a raise is answered by a unicast generic error. -/
def handleSessionCreate (tr : String → Bool) (st : WsState) (cid : String)
    (res : Except String String) : WsState × List (String × OutMsg) :=
  match res with
  | .ok newSid =>
    let st1 := (subscribeSession st cid newSid).1
    let r := wsSend tr st1 cid
    (r.1, if r.2 then [(cid, .sessionCreated newSid)] else [])
  | .error e =>
    let r := wsSend tr st cid
    (r.1, if r.2 then [(cid, .errorMsg e)] else [])

/-- `WebSocketService._handle_session_update` (lines 627-685): a successful update is
broadcast to the session's subscribers; a `None` result or a raise is answered by a
unicast generic error to the requester. -/
def handleSessionUpdate (tr : String → Bool) (st : WsState) (cid sid : String)
    (res : Except String Bool) : WsState × List (String × OutMsg) :=
  match res with
  | .ok true => broadcastToSession tr st sid (.sessionUpdated sid) none
  | .ok false =>
    let r := wsSend tr st cid
    (r.1, if r.2 then [(cid, .errorMsg updateFailedText)] else [])
  | .error e =>
    let r := wsSend tr st cid
    (r.1, if r.2 then [(cid, .errorMsg e)] else [])

/-- `WebSocketService._handle_session_delete` (lines 687-741): a successful delete is
broadcast to the session's subscribers and the session's subscriber-index entry is
then dropped; a `False` result or a raise is answered by a unicast generic error. -/
def handleSessionDelete (tr : String → Bool) (st : WsState) (cid sid : String)
    (res : Except String Bool) : WsState × List (String × OutMsg) :=
  match res with
  | .ok true =>
    let r := broadcastToSession tr st sid (.sessionDeleted sid) none
    ({ r.1 with sessionConnections := eraseM r.1.sessionConnections sid }, r.2)
  | .ok false =>
    let r := wsSend tr st cid
    (r.1, if r.2 then [(cid, .errorMsg deleteFailedText)] else [])
  | .error e =>
    let r := wsSend tr st cid
    (r.1, if r.2 then [(cid, .errorMsg e)] else [])

/-- One parsed inbound frame, carrying as data the behaviour the external Chat
Collaborator exhibits for it (the collaborator is outside this core). -/
inductive InMsg where
  | ping
  | chatMessage (sid : String) (res : CollabResult)
  | sessionCreateReq (res : Except String String)
  | sessionUpdateReq (sid : String) (res : Except String Bool)
  | sessionDeleteReq (sid : String) (res : Except String Bool)
  | unknown
  deriving Repr

/-- `WebSocketService.handle_message` (lines 314-352): a frame from an unknown or
inactive connection is dropped without reply or state change; otherwise the frame is
dispatched on its type, an unknown type being answered by a unicast generic error. -/
def handleMessage (tr : String → Bool) (now : Nat) (st : WsState) (cid : String)
    (m : InMsg) : WsState × List (String × OutMsg) :=
  match lookupM st.connections cid with
  | none => (st, [])
  | some c =>
    if c.isActive then
      match m with
      | .ping => handlePing tr now st cid
      | .chatMessage sid res => handleChatMessage tr st cid sid res
      | .sessionCreateReq res => handleSessionCreate tr st cid res
      | .sessionUpdateReq sid res => handleSessionUpdate tr st cid sid res
      | .sessionDeleteReq sid res => handleSessionDelete tr st cid sid res
      | .unknown =>
        let r := wsSend tr st cid
        (r.1, if r.2 then [(cid, .errorMsg unknownTypeText)] else [])
    else (st, [])

/-- `WebSocketService.connect` (lines 196-274), with the transport accept outcome and
the resolved token-verification result as parameters: on accept failure every
exception is caught, a best-effort close is attempted and the Python call returns
`None` (here `false`); on success the connection is registered, indexed under its
user when authenticated, and the confirmation frame is sent best-effort. -/
def wsConnect (tr : String → Bool) (acceptOk : Bool) (st : WsState) (cid : String)
    (authUser : Option String) (sessionToken : Option String) (now : Nat) :
    WsState × Bool :=
  if acceptOk then
    let c : WSConn :=
      { userId := authUser, sessionToken := sessionToken, lastPing := now,
        isActive := true, subscribedSessions := [] }
    let st1 := { st with connections := insertM st.connections cid c }
    let st2 :=
      match authUser with
      | none => st1
      | some u =>
        let prev := (lookupM st1.userConnections u).getD []
        { st1 with userConnections := insertM st1.userConnections u (insertS prev cid) }
    ((wsSend tr st2 cid).1, true)
  else (st, false)

/-- A Python call outcome with the exception channel explicit: `ret` is a normal
return, `raised` an exception propagating to the caller. -/
inductive PyResult (α : Type) where
  | ret (a : α)
  | raised (e : String)
  deriving Repr, DecidableEq

/-- `WebSocketService.connect` with its exception behaviour explicit: the
`try/except Exception` around the whole body means the call always returns normally,
and in particular a transport accept failure is caught, never propagated. -/
def wsConnectResult (tr : String → Bool) (acceptOk : Bool) (st : WsState) (cid : String)
    (authUser : Option String) (sessionToken : Option String) (now : Nat) :
    PyResult (WsState × Bool) :=
  .ret (wsConnect tr acceptOk st cid authUser sessionToken now)

/-- `WebSocketService.heartbeat_interval` (line 159): 30 seconds. -/
def heartbeatInterval : Nat := 30

/-- `WebSocketService.heartbeat_timeout` (line 160): 60 seconds. -/
def heartbeatTimeout : Nat := 60

/-- The `timeout_connections` list built by one sweep of
`WebSocketService._heartbeat_monitor` (lines 773-782): the identifiers whose seconds
since `last_ping` exceed `heartbeat_timeout`. -/
def sweepTimedOut (st : WsState) (now : Nat) : List String :=
  (st.connections.filter (fun p => heartbeatTimeout < now - p.2.lastPing)).map Prod.fst

/-- One sweep of `WebSocketService._heartbeat_monitor` (lines 763-794): collect the
timed-out identifiers, then disconnect each of them. -/
def heartbeatSweep (st : WsState) (now : Nat) : WsState :=
  (sweepTimedOut st now).foldl wsDisconnect st

/-! ## Embedding of `ConnectionManager` (`backend/app/websocket/manager.py`) -/

/-- One `connection_metadata` entry (manager.py lines 52-57). -/
structure MgrMeta where
  sessionId : String
  userId : Option String
  lastHeartbeat : Nat
  deriving Repr, DecidableEq

/-- The mutable state of `ConnectionManager` (lines 23-31).  The socket handles in
`active_connections` are abstracted to their key set, the transport predicate
standing for their behaviour; `heartbeat_tasks` is kept as the set of identifiers
currently owning a spawned heartbeat task. -/
structure MgrState where
  activeConnections : SetL
  sessionSubscriptions : MapL SetL
  connectionMetadata : MapL MgrMeta
  heartbeatTasks : SetL
  deriving Repr, DecidableEq

/-- `ConnectionManager.disconnect` (lines 85-115): cancel and drop the heartbeat
task, discard the identifier from its metadata session's subscriber set (dropping the
entry when it empties), and pop the connection and metadata entries; every step
tolerates an already-absent identifier. -/
def mgrDisconnect (st : MgrState) (cid : String) : MgrState :=
  let tasks := eraseS st.heartbeatTasks cid
  let subs :=
    match lookupM st.connectionMetadata cid with
    | none => st.sessionSubscriptions
    | some m => removeFromSetEntry st.sessionSubscriptions m.sessionId cid
  { activeConnections := eraseS st.activeConnections cid,
    sessionSubscriptions := subs,
    connectionMetadata := eraseM st.connectionMetadata cid,
    heartbeatTasks := tasks }

/-- `ConnectionManager.send_personal_message` (lines 117-131): an unknown identifier
is silently skipped; a transport send failure is caught and triggers `disconnect` of
that connection.  The returned flag is the delivery outcome (the Python method
returns `None`; delivery is observable to the caller only through the state). -/
def mgrSend (tr : String → Bool) (st : MgrState) (cid : String) : MgrState × Bool :=
  if cid ∈ st.activeConnections then
    if tr cid then (st, true) else (mgrDisconnect st cid, false)
  else (st, false)

/-- `ConnectionManager.send_personal_message` with the exception channel explicit:
the `try/except` around the send means no transport error propagates to the caller. -/
def mgrSendResult (tr : String → Bool) (st : MgrState) (cid : String) :
    PyResult (MgrState × Bool) :=
  .ret (mgrSend tr st cid)

/-- `ConnectionManager.connect` (lines 33-83) with the transport accept outcome as a
parameter: an accept failure is caught and the call returns `False` with the state
unchanged; on success the connection is stored, auto-subscribed to its session,
given a heartbeat task, and the `connection_established` confirmation is sent via
`send_personal_message` (whose own failure path may immediately disconnect again). -/
def mgrConnect (tr : String → Bool) (acceptOk : Bool) (st : MgrState)
    (cid sid : String) (userId : Option String) (now : Nat) : MgrState × Bool :=
  if acceptOk then
    let meta : MgrMeta := { sessionId := sid, userId := userId, lastHeartbeat := now }
    let prev := (lookupM st.sessionSubscriptions sid).getD []
    let st1 : MgrState :=
      { activeConnections := insertS st.activeConnections cid,
        sessionSubscriptions := insertM st.sessionSubscriptions sid (insertS prev cid),
        connectionMetadata := insertM st.connectionMetadata cid meta,
        heartbeatTasks := insertS st.heartbeatTasks cid }
    ((mgrSend tr st1 cid).1, true)
  else (st, false)

/-- `ConnectionManager.connect` with the exception channel explicit: the
`try/except Exception` around the whole body means the call always returns normally,
and in particular a transport accept failure is caught, never propagated. -/
def mgrConnectResult (tr : String → Bool) (acceptOk : Bool) (st : MgrState)
    (cid sid : String) (userId : Option String) (now : Nat) :
    PyResult (MgrState × Bool) :=
  .ret (mgrConnect tr acceptOk st cid sid userId now)

/-- One iteration body of `ConnectionManager._heartbeat_loop` (lines 190-224) for
`cid` at time `now`: exit silently when the connection or its metadata is gone; evict
via `disconnect` when more than 60 seconds passed since `last_heartbeat`; otherwise
probe with a `heartbeat_request` send (whose failure path itself disconnects). -/
def mgrHeartbeatCheck (tr : String → Bool) (st : MgrState) (cid : String) (now : Nat) :
    MgrState :=
  if cid ∈ st.activeConnections then
    match lookupM st.connectionMetadata cid with
    | none => st
    | some m =>
      if 60 < now - m.lastHeartbeat then mgrDisconnect st cid
      else (mgrSend tr st cid).1
  else st

/-! ## Well-formedness of reachable registry states -/

/-- Key uniqueness of an embedded dictionary. -/
def keysNodup {α : Type} (m : MapL α) : Prop := (m.map Prod.fst).Nodup

/-- The user-index link of the service: an identifier filed under user `u` is a
registered connection authenticated as `u`. -/
def userLinkOK (st : WsState) (u cid : String) : Bool :=
  match lookupM st.connections cid with
  | some c => decide (c.userId = some u)
  | none => false

/-- The session-index link of the service: a subscriber of session `sid` is a
registered connection whose subscription set contains `sid`. -/
def sessionLinkOK (st : WsState) (sid cid : String) : Bool :=
  match lookupM st.connections cid with
  | some c => decide (sid ∈ c.subscribedSessions)
  | none => false

/-- Well-formedness of the service registry, as established by `connect` and
preserved by the mutation operations: both indices only reference registered
connections, consistently with the connection's own fields. -/
def WsWF (st : WsState) : Prop :=
  (∀ p ∈ st.userConnections, ∀ cid ∈ p.2, userLinkOK st p.1 cid = true) ∧
  (∀ p ∈ st.sessionConnections, ∀ cid ∈ p.2, sessionLinkOK st p.1 cid = true)

/-- The subscription link of the manager: a subscriber of session `sid` has a
metadata entry naming `sid` as its session. -/
def mgrLinkOK (st : MgrState) (sid cid : String) : Bool :=
  match lookupM st.connectionMetadata cid with
  | some m => decide (m.sessionId = sid)
  | none => false

/-- Well-formedness of the manager registry: the subscriber index only references
connections whose metadata names that session. -/
def MgrWF (st : MgrState) : Prop :=
  ∀ p ∈ st.sessionSubscriptions, ∀ cid ∈ p.2, mgrLinkOK st p.1 cid = true

/-! ## Derived notions used by the statements -/

/-- A connection the transport can still reach: registered, active, and with a
working socket. -/
def goodPeer (tr : String → Bool) (st : WsState) (cid : String) : Bool :=
  match lookupM st.connections cid with
  | some c => c.isActive && tr cid
  | none => false

/-- The subscriber set of `sid` right after `_handle_chat_message` auto-subscribes
the sender, i.e. the set the turn's broadcasts iterate over. -/
def subsAfter (st : WsState) (cid sid : String) : SetL :=
  (lookupM (subscribeSession st cid sid).1.sessionConnections sid).getD []

/-- The events a successful chat turn broadcasts: the single `chat_response` in
normal mode, the yielded chunks in stream mode.  A failed turn broadcasts no
*successful-turn* events (the `chat_error` path is unicast). -/
def turnEvents (sid : String) : CollabResult → List OutMsg
  | .respOk content => [.chatResponse sid content]
  | .respErr _ => []
  | .streamRun chunks none => (chunks.map (streamMsg sid))
  | .streamRun _ (some _) => []

/-- Recognizer for `chat_error` events. -/
def isChatErr : OutMsg → Bool
  | .chatError _ => true
  | _ => false

/-! ## Helper lemmas about the service operations -/

theorem wsSend_of_goodPeer (tr : String → Bool) (st : WsState) (cid : String)
    (h : goodPeer tr st cid = true) : wsSend tr st cid = (st, true) := by
  unfold goodPeer at h
  unfold wsSend
  cases hl : lookupM st.connections cid with
  | none => rw [hl] at h; simp at h
  | some c =>
    rw [hl] at h
    simp only [Bool.and_eq_true] at h
    simp [h.1, h.2]

theorem broadcastStep_of_goodPeer (tr : String → Bool) (msg : OutMsg) (st : WsState)
    (acc : List (String × OutMsg)) (cid : String) (h : goodPeer tr st cid = true) :
    broadcastStep tr msg none (st, acc) cid = (st, acc ++ [(cid, msg)]) := by
  unfold goodPeer at h
  unfold broadcastStep
  cases hl : lookupM st.connections cid with
  | none => rw [hl] at h; simp at h
  | some c =>
    rw [hl] at h
    simp only [Bool.and_eq_true] at h
    have hs := wsSend_of_goodPeer tr st cid (by unfold goodPeer; rw [hl]; simp [h.1, h.2])
    simp [hl, h.1, hs]

theorem foldl_broadcastStep_all (tr : String → Bool) (msg : OutMsg) (cids : List String)
    (st : WsState) (acc : List (String × OutMsg))
    (h : ∀ cid ∈ cids, goodPeer tr st cid = true) :
    cids.foldl (broadcastStep tr msg none) (st, acc) =
      (st, acc ++ cids.map (fun cid => (cid, msg))) := by
  induction cids generalizing acc with
  | nil => simp
  | cons a rest ih =>
    rw [List.foldl_cons,
      broadcastStep_of_goodPeer tr msg st acc a (h a (List.mem_cons_self a rest)),
      ih _ (fun cid hm => h cid (List.mem_cons_of_mem _ hm))]
    simp

theorem broadcastToSession_of_goodPeers (tr : String → Bool) (st : WsState)
    (sid : String) (msg : OutMsg)
    (h : ∀ cid ∈ (lookupM st.sessionConnections sid).getD [], goodPeer tr st cid = true) :
    broadcastToSession tr st sid msg none =
      (st, ((lookupM st.sessionConnections sid).getD []).map (fun cid => (cid, msg))) := by
  unfold broadcastToSession
  rw [foldl_broadcastStep_all tr msg _ st [] h]
  simp

theorem broadcastStep_snd_cases (tr : String → Bool) (msg : OutMsg)
    (exclude : Option String) (acc : WsState × List (String × OutMsg)) (cid : String) :
    (broadcastStep tr msg exclude acc cid).2 = acc.2 ∨
      (broadcastStep tr msg exclude acc cid).2 = acc.2 ++ [(cid, msg)] := by
  unfold broadcastStep
  by_cases he : exclude = some cid
  · rw [if_pos he]; exact Or.inl rfl
  · rw [if_neg he]
    cases lookupM acc.1.connections cid with
    | none => exact Or.inl rfl
    | some c =>
      dsimp only
      cases hb : c.isActive with
      | false => simp
      | true =>
        cases hw : (wsSend tr acc.1 cid).2 with
        | false => simp [hw]
        | true => simp [hw]

theorem foldl_broadcastStep_mem (tr : String → Bool) (msg : OutMsg)
    (exclude : Option String) (cids : List String) (st : WsState)
    (acc : List (String × OutMsg)) (q : String × OutMsg)
    (hq : q ∈ (cids.foldl (broadcastStep tr msg exclude) (st, acc)).2) :
    q ∈ acc ∨ (q.2 = msg ∧ q.1 ∈ cids) := by
  induction cids generalizing st acc with
  | nil => exact Or.inl (by simpa using hq)
  | cons a rest ih =>
    rw [List.foldl_cons] at hq
    have h2 := ih (broadcastStep tr msg exclude (st, acc) a).1
      (broadcastStep tr msg exclude (st, acc) a).2 hq
    rcases h2 with hin | ⟨hm, hmem⟩
    · rcases broadcastStep_snd_cases tr msg exclude (st, acc) a with he | he
      · rw [he] at hin; exact Or.inl hin
      · rw [he] at hin
        rcases List.mem_append.mp hin with hin' | hin'
        · exact Or.inl hin'
        · simp only [List.mem_singleton] at hin'
          subst hin'
          exact Or.inr ⟨rfl, List.mem_cons_self _ _⟩
    · exact Or.inr ⟨hm, List.mem_cons_of_mem _ hmem⟩

theorem broadcastToSession_mem (tr : String → Bool) (st : WsState) (sid : String)
    (msg : OutMsg) (exclude : Option String) (q : String × OutMsg)
    (hq : q ∈ (broadcastToSession tr st sid msg exclude).2) :
    q.2 = msg ∧ q.1 ∈ (lookupM st.sessionConnections sid).getD [] := by
  unfold broadcastToSession at hq
  rcases foldl_broadcastStep_mem tr msg exclude _ st [] q hq with h | h
  · simp at h
  · exact h

theorem streamStep_snd_mem (tr : String → Bool) (sid : String)
    (acc : WsState × List (String × OutMsg)) (ch : StreamChunk) (q : String × OutMsg)
    (hq : q ∈ (streamStep tr sid acc ch).2) :
    q ∈ acc.2 ∨ q.2 = streamMsg sid ch := by
  unfold streamStep at hq
  rcases List.mem_append.mp hq with h | h
  · exact Or.inl h
  · exact Or.inr (broadcastToSession_mem tr acc.1 sid _ none q h).1

theorem foldl_streamStep_mem (tr : String → Bool) (sid : String)
    (chunks : List StreamChunk) (st : WsState) (acc : List (String × OutMsg))
    (q : String × OutMsg)
    (hq : q ∈ (chunks.foldl (streamStep tr sid) (st, acc)).2) :
    q ∈ acc ∨ ∃ ch, ch ∈ chunks ∧ q.2 = streamMsg sid ch := by
  induction chunks generalizing st acc with
  | nil => exact Or.inl (by simpa using hq)
  | cons c0 rest ih =>
    rw [List.foldl_cons] at hq
    have h2 := ih (streamStep tr sid (st, acc) c0).1 (streamStep tr sid (st, acc) c0).2 hq
    rcases h2 with hin | ⟨ch, hch, hm⟩
    · rcases streamStep_snd_mem tr sid (st, acc) c0 q hin with h | h
      · exact Or.inl h
      · exact Or.inr ⟨c0, List.mem_cons_self _ _, h⟩
    · exact Or.inr ⟨ch, List.mem_cons_of_mem _ hch, hm⟩

theorem foldl_streamStep_acc_mono (tr : String → Bool) (sid : String)
    (chunks : List StreamChunk) (st : WsState) (acc : List (String × OutMsg))
    (q : String × OutMsg) (hq : q ∈ acc) :
    q ∈ (chunks.foldl (streamStep tr sid) (st, acc)).2 := by
  induction chunks generalizing st acc with
  | nil => simpa using hq
  | cons c0 rest ih =>
    rw [List.foldl_cons]
    have : streamStep tr sid (st, acc) c0 =
        ((streamStep tr sid (st, acc) c0).1, acc ++ (broadcastToSession tr st sid (streamMsg sid c0) none).2) := by
      unfold streamStep
      rfl
    rw [this]
    exact ih _ _ (List.mem_append_left _ hq)

theorem foldl_streamStep_all (tr : String → Bool) (sid : String)
    (chunks : List StreamChunk) (st : WsState) (acc : List (String × OutMsg))
    (h : ∀ cid ∈ (lookupM st.sessionConnections sid).getD [], goodPeer tr st cid = true) :
    ∀ ch ∈ chunks, ∀ cid ∈ (lookupM st.sessionConnections sid).getD [],
      (cid, streamMsg sid ch) ∈ (chunks.foldl (streamStep tr sid) (st, acc)).2 := by
  induction chunks generalizing acc with
  | nil => intro ch hch; exact absurd hch (List.not_mem_nil ch)
  | cons c0 rest ih =>
    intro ch hch cid hcid
    have hstep : streamStep tr sid (st, acc) c0 =
        (st, acc ++ ((lookupM st.sessionConnections sid).getD []).map
          (fun c' => (c', streamMsg sid c0))) := by
      unfold streamStep
      rw [broadcastToSession_of_goodPeers tr st sid _ h]
    rw [List.foldl_cons, hstep]
    rcases List.mem_cons.mp hch with rfl | hch'
    · apply foldl_streamStep_acc_mono
      exact List.mem_append_right _ (List.mem_map.mpr ⟨cid, hcid, rfl⟩)
    · exact ih _ ch hch' cid hcid

theorem subscribeSession_of_some (st : WsState) (cid sid : String) (c : WSConn)
    (hc : lookupM st.connections cid = some c) :
    (subscribeSession st cid sid).1 =
      { st with
        sessionConnections :=
          insertM st.sessionConnections sid
            (insertS ((lookupM st.sessionConnections sid).getD []) cid),
        connections :=
          insertM st.connections cid
            { c with subscribedSessions := insertS c.subscribedSessions sid } } := by
  unfold subscribeSession
  rw [hc]

theorem mem_subsAfter_self (st : WsState) (cid sid : String) (c : WSConn)
    (hc : lookupM st.connections cid = some c) :
    cid ∈ subsAfter st cid sid := by
  unfold subsAfter
  rw [subscribeSession_of_some st cid sid c hc]
  simp only
  rw [lookupM_insertM_self]
  exact mem_insertS_self _ _

theorem subsAfter_subscribed (st : WsState) (cid sid : String) (c : WSConn)
    (hc : lookupM st.connections cid = some c) :
    lookupM (subscribeSession st cid sid).1.connections cid =
      some { c with subscribedSessions := insertS c.subscribedSessions sid } := by
  rw [subscribeSession_of_some st cid sid c hc]
  simp only
  exact lookupM_insertM_self _ _ _

theorem wsDisconnect_of_none (st : WsState) (cid : String)
    (h : lookupM st.connections cid = none) : wsDisconnect st cid = st := by
  unfold wsDisconnect
  rw [h]

theorem wsDisconnect_of_some (st : WsState) (cid : String) (c : WSConn)
    (h : lookupM st.connections cid = some c) :
    wsDisconnect st cid =
      { connections := eraseM st.connections cid,
        userConnections :=
          (match c.userId with
           | none => st.userConnections
           | some u => removeFromSetEntry st.userConnections u cid),
        sessionConnections :=
          c.subscribedSessions.foldl (fun m sid => removeFromSetEntry m sid cid)
            st.sessionConnections } := by
  unfold wsDisconnect
  rw [h]

theorem wsDisconnect_lookup_self (st : WsState) (cid : String) :
    lookupM (wsDisconnect st cid).connections cid = none := by
  cases h : lookupM st.connections cid with
  | none => rw [wsDisconnect_of_none st cid h]; exact h
  | some c =>
    rw [wsDisconnect_of_some st cid c h]
    exact lookupM_eraseM_self _ _

theorem wsDisconnect_lookup_ne (st : WsState) (cid cid' : String) (h : cid' ≠ cid) :
    lookupM (wsDisconnect st cid).connections cid' = lookupM st.connections cid' := by
  cases hc : lookupM st.connections cid with
  | none => rw [wsDisconnect_of_none st cid hc]
  | some c =>
    rw [wsDisconnect_of_some st cid c hc]
    exact lookupM_eraseM_ne _ _ _ h

theorem wsDisconnect_none_stable (st : WsState) (cid cid' : String)
    (h : lookupM st.connections cid' = none) :
    lookupM (wsDisconnect st cid).connections cid' = none := by
  by_cases he : cid' = cid
  · rw [he]; exact wsDisconnect_lookup_self st cid
  · rw [wsDisconnect_lookup_ne st cid cid' he]; exact h

theorem foldl_removeFromSetEntry_mem (cid : String) (L : List String)
    (m : MapL SetL) (sid : String) (s' : SetL)
    (h : lookupM (L.foldl (fun m' sid' => removeFromSetEntry m' sid' cid) m) sid = some s')
    (hc : cid ∈ s') :
    (∃ s, lookupM m sid = some s ∧ cid ∈ s) ∧ sid ∉ L := by
  induction L generalizing m with
  | nil => exact ⟨⟨s', h, hc⟩, List.not_mem_nil sid⟩
  | cons a rest ih =>
    rw [List.foldl_cons] at h
    obtain ⟨⟨s1, hs1, hc1⟩, hnot⟩ := ih (removeFromSetEntry m a cid) h
    have hne : sid ≠ a := by
      intro he
      subst he
      exact lookupM_removeFromSetEntry_self m sid cid s1 hs1 hc1
    obtain ⟨s0, hs0, hc0⟩ := mem_lookupM_removeFromSetEntry m a sid cid cid s1 hs1 hc1
    exact ⟨⟨s0, hs0, hc0⟩, by
      intro hmem
      rcases List.mem_cons.mp hmem with he | he
      · exact hne he
      · exact hnot he⟩

theorem wsDisconnect_guest (st : WsState) (cid : String) (c : WSConn)
    (h : lookupM st.connections cid = some c) (hu : c.userId = none) :
    wsDisconnect st cid =
      { connections := eraseM st.connections cid,
        userConnections := st.userConnections,
        sessionConnections :=
          c.subscribedSessions.foldl (fun m sid => removeFromSetEntry m sid cid)
            st.sessionConnections } := by
  rw [wsDisconnect_of_some st cid c h, hu]

theorem wsDisconnect_auth (st : WsState) (cid : String) (c : WSConn) (u0 : String)
    (h : lookupM st.connections cid = some c) (hu : c.userId = some u0) :
    wsDisconnect st cid =
      { connections := eraseM st.connections cid,
        userConnections := removeFromSetEntry st.userConnections u0 cid,
        sessionConnections :=
          c.subscribedSessions.foldl (fun m sid => removeFromSetEntry m sid cid)
            st.sessionConnections } := by
  rw [wsDisconnect_of_some st cid c h, hu]

theorem wsDisconnect_clears_user (st : WsState) (cid : String) (hwf : WsWF st)
    (u : String) (s' : SetL)
    (h : lookupM (wsDisconnect st cid).userConnections u = some s') : cid ∉ s' := by
  intro hmem
  cases hc : lookupM st.connections cid with
  | none =>
    rw [wsDisconnect_of_none st cid hc] at h
    have hl := hwf.1 (u, s') (lookupM_mem _ _ _ h) cid hmem
    simp only [userLinkOK, hc] at hl
    exact Bool.noConfusion hl
  | some c =>
    cases hu : c.userId with
    | none =>
      rw [wsDisconnect_guest st cid c hc hu] at h
      simp only at h
      have hl := hwf.1 (u, s') (lookupM_mem _ _ _ h) cid hmem
      simp only [userLinkOK, hc, hu] at hl
      exact absurd hl (by simp)
    | some u0 =>
      rw [wsDisconnect_auth st cid c u0 hc hu] at h
      simp only at h
      by_cases he : u = u0
      · exact lookupM_removeFromSetEntry_self _ _ _ _ (he ▸ h) hmem
      · rw [lookupM_removeFromSetEntry_ne _ _ _ _ he] at h
        have hl := hwf.1 (u, s') (lookupM_mem _ _ _ h) cid hmem
        simp only [userLinkOK, hc, hu, decide_eq_true_eq] at hl
        exact he (Option.some.inj hl).symm

theorem wsDisconnect_clears_session (st : WsState) (cid : String) (hwf : WsWF st)
    (sid : String) (s' : SetL)
    (h : lookupM (wsDisconnect st cid).sessionConnections sid = some s') : cid ∉ s' := by
  intro hmem
  cases hc : lookupM st.connections cid with
  | none =>
    rw [wsDisconnect_of_none st cid hc] at h
    have hl := hwf.2 (sid, s') (lookupM_mem _ _ _ h) cid hmem
    simp only [sessionLinkOK, hc] at hl
    exact Bool.noConfusion hl
  | some c =>
    have hsc : (wsDisconnect st cid).sessionConnections =
        c.subscribedSessions.foldl (fun m s => removeFromSetEntry m s cid)
          st.sessionConnections := by
      rw [wsDisconnect_of_some st cid c hc]
    rw [hsc] at h
    obtain ⟨⟨s0, hs0, hc0⟩, hnot⟩ := foldl_removeFromSetEntry_mem cid _ _ sid s' h hmem
    have hl := hwf.2 (sid, s0) (lookupM_mem _ _ _ hs0) cid hc0
    simp only [sessionLinkOK, hc, decide_eq_true_eq] at hl
    exact hnot hl

theorem mgrDisconnect_not_active (st : MgrState) (cid : String) :
    cid ∉ (mgrDisconnect st cid).activeConnections :=
  not_mem_eraseS_self st.activeConnections cid

theorem mgrDisconnect_subs_none (st : MgrState) (cid : String)
    (hmeta : lookupM st.connectionMetadata cid = none) :
    (mgrDisconnect st cid).sessionSubscriptions = st.sessionSubscriptions := by
  unfold mgrDisconnect
  rw [hmeta]

theorem mgrDisconnect_subs_some (st : MgrState) (cid : String) (m : MgrMeta)
    (hmeta : lookupM st.connectionMetadata cid = some m) :
    (mgrDisconnect st cid).sessionSubscriptions =
      removeFromSetEntry st.sessionSubscriptions m.sessionId cid := by
  unfold mgrDisconnect
  rw [hmeta]

theorem mgrDisconnect_clears (st : MgrState) (cid : String) (hwf : MgrWF st)
    (sid : String) (s' : SetL)
    (h : lookupM (mgrDisconnect st cid).sessionSubscriptions sid = some s') :
    cid ∉ s' := by
  intro hmem
  cases hmeta : lookupM st.connectionMetadata cid with
  | none =>
    rw [mgrDisconnect_subs_none st cid hmeta] at h
    have hl := hwf (sid, s') (lookupM_mem _ _ _ h) cid hmem
    simp only [mgrLinkOK, hmeta] at hl
    exact Bool.noConfusion hl
  | some m =>
    rw [mgrDisconnect_subs_some st cid m hmeta] at h
    by_cases he : sid = m.sessionId
    · exact lookupM_removeFromSetEntry_self _ _ _ _ (he ▸ h) hmem
    · rw [lookupM_removeFromSetEntry_ne _ _ _ _ he] at h
      have hl := hwf (sid, s') (lookupM_mem _ _ _ h) cid hmem
      simp only [mgrLinkOK, hmeta, decide_eq_true_eq] at hl
      exact he hl.symm

theorem lookupM_eq_of_mem_nodup {α : Type} (m : MapL α) (k : String) (v : α)
    (hnd : keysNodup m) (hm : (k, v) ∈ m) : lookupM m k = some v := by
  induction m with
  | nil => simp at hm
  | cons p rest ih =>
    obtain ⟨a, b⟩ := p
    simp only [keysNodup, List.map_cons, List.nodup_cons] at hnd
    rcases List.mem_cons.mp hm with he | he
    · have h1 : k = a := congrArg Prod.fst he
      have h2 : v = b := congrArg Prod.snd he
      subst h1
      subst h2
      simp [lookupM]
    · have hk : k ∈ rest.map Prod.fst := List.mem_map.mpr ⟨(k, v), he, rfl⟩
      have ha : ¬ (a = k) := fun hc => hnd.1 (hc ▸ hk)
      simp only [lookupM]
      rw [if_neg ha]
      exact ih hnd.2 he

theorem mem_sweepTimedOut (st : WsState) (now : Nat) (cid : String) :
    cid ∈ sweepTimedOut st now ↔
      ∃ c, (cid, c) ∈ st.connections ∧ heartbeatTimeout < now - c.lastPing := by
  unfold sweepTimedOut
  constructor
  · intro h
    obtain ⟨p, hp, he⟩ := List.mem_map.mp h
    obtain ⟨hm, hf⟩ := List.mem_filter.mp hp
    exact ⟨p.2, by rw [← he]; exact hm, by simpa using hf⟩
  · intro ⟨c, hm, hf⟩
    exact List.mem_map.mpr ⟨(cid, c), List.mem_filter.mpr ⟨hm, by simpa using hf⟩, rfl⟩

theorem foldl_wsDisconnect_none_stable (L : List String) (st : WsState) (cid : String)
    (h : lookupM st.connections cid = none) :
    lookupM (L.foldl wsDisconnect st).connections cid = none := by
  induction L generalizing st with
  | nil => exact h
  | cons a rest ih =>
    rw [List.foldl_cons]
    exact ih _ (wsDisconnect_none_stable st a cid h)

theorem foldl_wsDisconnect_not_mem (L : List String) (st : WsState) (cid : String)
    (h : cid ∉ L) :
    lookupM (L.foldl wsDisconnect st).connections cid = lookupM st.connections cid := by
  induction L generalizing st with
  | nil => rfl
  | cons a rest ih =>
    simp only [List.mem_cons, not_or] at h
    rw [List.foldl_cons, ih _ h.2, wsDisconnect_lookup_ne st a cid h.1]

theorem foldl_wsDisconnect_mem (L : List String) (st : WsState) (cid : String)
    (h : cid ∈ L) :
    lookupM (L.foldl wsDisconnect st).connections cid = none := by
  induction L generalizing st with
  | nil => simp at h
  | cons a rest ih =>
    rw [List.foldl_cons]
    by_cases he : cid ∈ rest
    · exact ih _ he
    · have ha : cid = a := by
        rcases List.mem_cons.mp h with h1 | h1
        · exact h1
        · exact absurd h1 he
      subst ha
      exact foldl_wsDisconnect_none_stable rest _ cid (wsDisconnect_lookup_self st cid)

/-- The no-empty-entry invariant of an identifier-set index: no key maps to an empty
set. -/
def noEmptyIdx (m : MapL SetL) : Prop := ∀ p ∈ m, p.2 ≠ []

theorem insertS_ne_nil (s : SetL) (x : String) : insertS s x ≠ [] := by
  unfold insertS
  split
  · next hmem =>
    intro h
    rw [h] at hmem
    simp at hmem
  · simp

theorem mem_insertM {α : Type} (m : MapL α) (k : String) (v : α) (p : String × α)
    (h : p ∈ insertM m k v) : p = (k, v) ∨ p ∈ m := by
  induction m with
  | nil => simp [insertM] at h; exact Or.inl h
  | cons q rest ih =>
    obtain ⟨a, b⟩ := q
    simp only [insertM] at h
    by_cases hp : a = k
    · rw [if_pos hp] at h
      rcases List.mem_cons.mp h with he | he
      · exact Or.inl he
      · exact Or.inr (List.mem_cons_of_mem _ he)
    · rw [if_neg hp] at h
      rcases List.mem_cons.mp h with he | he
      · exact Or.inr (he ▸ List.mem_cons_self _ _)
      · rcases ih he with he' | he'
        · exact Or.inl he'
        · exact Or.inr (List.mem_cons_of_mem _ he')

theorem mem_eraseM {α : Type} (m : MapL α) (k : String) (p : String × α)
    (h : p ∈ eraseM m k) : p ∈ m := by
  induction m with
  | nil => simp [eraseM] at h
  | cons q rest ih =>
    obtain ⟨a, b⟩ := q
    simp only [eraseM] at h
    by_cases hp : a = k
    · rw [if_pos hp] at h
      exact List.mem_cons_of_mem _ (ih h)
    · rw [if_neg hp] at h
      rcases List.mem_cons.mp h with he | he
      · exact he ▸ List.mem_cons_self _ _
      · exact List.mem_cons_of_mem _ (ih he)

theorem noEmptyIdx_insertM (m : MapL SetL) (k : String) (v : SetL)
    (hm : noEmptyIdx m) (hv : v ≠ []) : noEmptyIdx (insertM m k v) := by
  intro p hp
  rcases mem_insertM m k v p hp with he | he
  · rw [he]; exact hv
  · exact hm p he

theorem noEmptyIdx_eraseM (m : MapL SetL) (k : String) (hm : noEmptyIdx m) :
    noEmptyIdx (eraseM m k) :=
  fun p hp => hm p (mem_eraseM m k p hp)

theorem noEmptyIdx_removeFromSetEntry (m : MapL SetL) (k x : String)
    (hm : noEmptyIdx m) : noEmptyIdx (removeFromSetEntry m k x) := by
  cases hl : lookupM m k with
  | none => rw [removeFromSetEntry_of_none m k x hl]; exact hm
  | some s =>
    rw [removeFromSetEntry_of_some m k x s hl]
    by_cases he : eraseS s x = []
    · rw [if_pos he]; exact noEmptyIdx_eraseM m k hm
    · rw [if_neg he]; exact noEmptyIdx_insertM m k _ hm he

theorem noEmptyIdx_foldl_remove (L : List String) (m : MapL SetL) (x : String)
    (hm : noEmptyIdx m) :
    noEmptyIdx (L.foldl (fun m' sid => removeFromSetEntry m' sid x) m) := by
  induction L generalizing m with
  | nil => exact hm
  | cons a rest ih =>
    rw [List.foldl_cons]
    exact ih _ (noEmptyIdx_removeFromSetEntry m a x hm)

theorem wsSend_indices (tr : String → Bool) (st : WsState) (cid : String) :
    (wsSend tr st cid).1.userConnections = st.userConnections ∧
      (wsSend tr st cid).1.sessionConnections = st.sessionConnections := by
  unfold wsSend
  cases hl : lookupM st.connections cid with
  | none => exact ⟨rfl, rfl⟩
  | some c =>
    dsimp only
    cases hb : c.isActive with
    | false => simp
    | true =>
      cases ht : tr cid with
      | false => simp
      | true => simp

theorem broadcastStep_indices (tr : String → Bool) (msg : OutMsg)
    (exclude : Option String) (acc : WsState × List (String × OutMsg)) (cid : String) :
    (broadcastStep tr msg exclude acc cid).1.userConnections = acc.1.userConnections ∧
      (broadcastStep tr msg exclude acc cid).1.sessionConnections =
        acc.1.sessionConnections := by
  unfold broadcastStep
  by_cases he : exclude = some cid
  · rw [if_pos he]; exact ⟨rfl, rfl⟩
  · rw [if_neg he]
    cases hl : lookupM acc.1.connections cid with
    | none => exact ⟨rfl, rfl⟩
    | some c =>
      dsimp only
      cases hb : c.isActive with
      | false => simp
      | true => exact (wsSend_indices tr acc.1 cid)

theorem foldl_broadcastStep_indices (tr : String → Bool) (msg : OutMsg)
    (exclude : Option String) (cids : List String) (st : WsState)
    (acc : List (String × OutMsg)) :
    (cids.foldl (broadcastStep tr msg exclude) (st, acc)).1.userConnections =
        st.userConnections ∧
      (cids.foldl (broadcastStep tr msg exclude) (st, acc)).1.sessionConnections =
        st.sessionConnections := by
  induction cids generalizing st acc with
  | nil => exact ⟨rfl, rfl⟩
  | cons a rest ih =>
    rw [List.foldl_cons]
    have hstep := broadcastStep_indices tr msg exclude (st, acc) a
    have hrec := ih (broadcastStep tr msg exclude (st, acc) a).1
      (broadcastStep tr msg exclude (st, acc) a).2
    exact ⟨hrec.1.trans hstep.1, hrec.2.trans hstep.2⟩

theorem broadcastToSession_indices (tr : String → Bool) (st : WsState) (sid : String)
    (msg : OutMsg) (exclude : Option String) :
    (broadcastToSession tr st sid msg exclude).1.userConnections = st.userConnections ∧
      (broadcastToSession tr st sid msg exclude).1.sessionConnections =
        st.sessionConnections := by
  unfold broadcastToSession
  exact foldl_broadcastStep_indices tr msg exclude _ st []

theorem eraseM_of_lookupM_none {α : Type} (m : MapL α) (k : String)
    (h : lookupM m k = none) : eraseM m k = m := by
  induction m with
  | nil => rfl
  | cons p rest ih =>
    obtain ⟨a, b⟩ := p
    simp only [lookupM] at h
    by_cases hp : a = k
    · rw [if_pos hp] at h; exact absurd h (by simp)
    · rw [if_neg hp] at h
      simp only [eraseM]
      rw [if_neg hp, ih h]

theorem mgrDisconnect_noop (st : MgrState) (cid : String)
    (hact : cid ∉ st.activeConnections) (htask : cid ∉ st.heartbeatTasks)
    (hmeta : lookupM st.connectionMetadata cid = none) :
    mgrDisconnect st cid = st := by
  unfold mgrDisconnect
  rw [hmeta, eraseS_of_not_mem _ _ hact, eraseS_of_not_mem _ _ htask,
    eraseM_of_lookupM_none _ _ hmeta]

/-! ## Concrete states used by the witnesses and the counterexamples -/

def cidA : String := "conn-a"

def cidB : String := "conn-b"

def sidS : String := "session-1"

def uidU : String := "user-1"

def tokT : String := "guest-token"

def bodyHello : String := "hello"

def errBoom : String := "boom"

/-- A transport on which every send succeeds. -/
def trOk : String → Bool := fun _ => true

/-- A transport on which every send fails. -/
def trDead : String → Bool := fun _ => false

def connA : WSConn :=
  { userId := some uidU, sessionToken := none, lastPing := 0, isActive := true,
    subscribedSessions := [sidS] }

def connB : WSConn :=
  { userId := none, sessionToken := some tokT, lastPing := 0, isActive := true,
    subscribedSessions := [sidS] }

/-- An inactive connection, as left behind by a failed send. -/
def connDead : WSConn :=
  { userId := none, sessionToken := none, lastPing := 0, isActive := false,
    subscribedSessions := [] }

/-- A service registry with an authenticated connection `cidA` and a guest
connection `cidB`, both subscribed to `sidS`. -/
def exSt : WsState :=
  { connections := [(cidA, connA), (cidB, connB)],
    userConnections := [(uidU, [cidA])],
    sessionConnections := [(sidS, [cidA, cidB])] }

/-- A service registry holding only an inactive connection `cidB`. -/
def exStDead : WsState :=
  { connections := [(cidB, connDead)], userConnections := [], sessionConnections := [] }

/-- A manager registry with `cidA` and `cidB` connected to session `sidS`. -/
def exMgr : MgrState :=
  { activeConnections := [cidA, cidB],
    sessionSubscriptions := [(sidS, [cidA, cidB])],
    connectionMetadata :=
      [(cidA, { sessionId := sidS, userId := some uidU, lastHeartbeat := 0 }),
       (cidB, { sessionId := sidS, userId := none, lastHeartbeat := 0 })],
    heartbeatTasks := [cidA, cidB] }

/-- The error-text chunk `chat_service.stream_message` yields from its `except`
clause before re-raising. -/
def errChunk : StreamChunk := { content := errBoom, isComplete := true, hasError := true }

/-- A stream-mode turn on which the collaborator fails: it yields its error chunk and
then the raise propagates into `_handle_chat_message`. -/
def failStream : CollabResult := .streamRun [errChunk] (some errBoom)

/-- A freshly connected guest that has never subscribed to anything. -/
def connFresh : WSConn :=
  { userId := none, sessionToken := none, lastPing := 0, isActive := true,
    subscribedSessions := [] }

/-- A registry whose only connection has no subscriptions at all. -/
def exStFresh : WsState :=
  { connections := [(cidA, connFresh)], userConnections := [], sessionConnections := [] }

/-! ## Claim theorems -/

/-- C4: `unregister` is idempotent in both implementations: for every registry state,
a second disconnect of the same identifier yields exactly the state the first left,
and — being a total function — the second call completes without error even though
the identifier is already gone. -/
theorem unregister_idempotent (st : WsState) (st2 : MgrState) (cid : String) :
    wsDisconnect (wsDisconnect st cid) cid = wsDisconnect st cid ∧
      mgrDisconnect (mgrDisconnect st2 cid) cid = mgrDisconnect st2 cid := by
  constructor
  · exact wsDisconnect_of_none _ cid (wsDisconnect_lookup_self st cid)
  · exact mgrDisconnect_noop _ cid (not_mem_eraseS_self _ _) (not_mem_eraseS_self _ _)
      (lookupM_eraseM_self _ _)

/-- C10: `handle_message` drops a frame whose connection identifier is unknown, or
registered but inactive: no handler runs, no reply or error is sent, the registry is
unchanged, and the call returns normally. -/
theorem inbound_from_dead_connection_ignored
    (tr : String → Bool) (now : Nat) (st : WsState) (cid : String) (m : InMsg)
    (h : lookupM st.connections cid = none ∨
      ∃ c, lookupM st.connections cid = some c ∧ c.isActive = false) :
    handleMessage tr now st cid m = (st, []) := by
  rcases h with h | ⟨c, hc, hact⟩
  · unfold handleMessage
    rw [h]
  · unfold handleMessage
    rw [hc]
    dsimp only
    rw [hact]
    simp

/-- C10 witness: a `ping` from the inactive connection of `exStDead` is dropped. -/
theorem inbound_from_dead_connection_witness :
    handleMessage trOk 5 exStDead cidB .ping = (exStDead, []) :=
  inbound_from_dead_connection_ignored trOk 5 exStDead cidB .ping
    (Or.inr ⟨connDead, by decide, by decide⟩)

/-- C3: after `unregister(c)` completes, `c` is absent from every session's
subscriber set and from every user's connection set (service implementation; the
manager implementation likewise clears its subscriber index), and a subsequent
`sendTo(c, …)` — the manager's `send_personal_message` — returns the failure outcome
without raising and leaves the state untouched. -/
theorem unregister_clears_and_sendTo_fails
    (st : WsState) (cid : String) (hwf : WsWF st)
    (st2 : MgrState) (cid2 : String) (hwf2 : MgrWF st2) (tr : String → Bool) :
    (∀ sid s, lookupM (wsDisconnect st cid).sessionConnections sid = some s →
        cid ∉ s) ∧
      (∀ u s, lookupM (wsDisconnect st cid).userConnections u = some s → cid ∉ s) ∧
      (∀ sid s, lookupM (mgrDisconnect st2 cid2).sessionSubscriptions sid = some s →
        cid2 ∉ s) ∧
      mgrSendResult tr (mgrDisconnect st2 cid2) cid2 =
        .ret (mgrDisconnect st2 cid2, false) := by
  refine ⟨fun sid s h => wsDisconnect_clears_session st cid hwf sid s h,
    fun u s h => wsDisconnect_clears_user st cid hwf u s h,
    fun sid s h => mgrDisconnect_clears st2 cid2 hwf2 sid s h, ?_⟩
  unfold mgrSendResult mgrSend
  rw [if_neg (mgrDisconnect_not_active st2 cid2)]

/-- C3 witness: disconnecting `cidA` from the concrete registries, a later `sendTo`
to it fails without raising. -/
theorem unregister_clears_witness :
    mgrSendResult trOk (mgrDisconnect exMgr cidA) cidA =
      .ret (mgrDisconnect exMgr cidA, false) := by
  have hwf : WsWF exSt := by unfold WsWF; decide
  have hwf2 : MgrWF exMgr := by unfold MgrWF; decide
  exact (unregister_clears_and_sendTo_fails exSt cidA hwf exMgr cidA hwf2 trOk).2.2.2

/-- C5: a transport-level send failure inside `sendTo` (the manager's
`send_personal_message`, the §4.1 registry unicast) unregisters the connection —
removing it from the connection registry, the metadata map and, in well-formed
states, every session-index entry — and yields the failure outcome as a normal
return: the transport exception never propagates to the caller. -/
theorem sendTo_failure_unregisters
    (tr : String → Bool) (st : MgrState) (cid : String)
    (hact : cid ∈ st.activeConnections) (htr : tr cid = false) (hwf : MgrWF st) :
    mgrSendResult tr st cid = .ret (mgrDisconnect st cid, false) ∧
      cid ∉ (mgrDisconnect st cid).activeConnections ∧
      lookupM (mgrDisconnect st cid).connectionMetadata cid = none ∧
      (∀ sid s, lookupM (mgrDisconnect st cid).sessionSubscriptions sid = some s →
        cid ∉ s) := by
  refine ⟨?_, mgrDisconnect_not_active st cid, lookupM_eraseM_self _ _,
    fun sid s h => mgrDisconnect_clears st cid hwf sid s h⟩
  unfold mgrSendResult mgrSend
  rw [if_pos hact, htr]
  simp

/-- C5 witness: on the dead transport, sending to `cidA` disconnects it and returns
failure. -/
theorem sendTo_failure_witness :
    mgrSendResult trDead exMgr cidA = .ret (mgrDisconnect exMgr cidA, false) := by
  have hwf : MgrWF exMgr := by unfold MgrWF; decide
  exact (sendTo_failure_unregisters trDead exMgr cidA (by decide) (by decide) hwf).1

/-- C2: at any sweep of the service heartbeat monitor, a registered connection is
evicted precisely when its seconds since `last_ping` exceed `heartbeatTimeout` —
so a connection whose timestamp stops updating survives every sweep up to the
timeout and is removed by the first sweep past it; the configuration is a 30-second
interval and a 60-second timeout, i.e. `heartbeatTimeout = 2 × heartbeatInterval`.
The manager's per-connection loop applies the same timeout rule (given that its
probe send succeeds, probing being an ordinary `sendTo`). -/
theorem heartbeat_eviction_exact
    (st : WsState) (now : Nat) (cid : String) (c : WSConn)
    (hnd : keysNodup st.connections)
    (hc : lookupM st.connections cid = some c)
    (tr : String → Bool) (st2 : MgrState) (cid2 : String) (m : MgrMeta) (now2 : Nat)
    (hact : cid2 ∈ st2.activeConnections)
    (hmeta : lookupM st2.connectionMetadata cid2 = some m) :
    (now - c.lastPing ≤ heartbeatTimeout →
        lookupM (heartbeatSweep st now).connections cid = some c) ∧
      (heartbeatTimeout < now - c.lastPing →
        lookupM (heartbeatSweep st now).connections cid = none) ∧
      heartbeatInterval = 30 ∧ heartbeatTimeout = 60 ∧
      heartbeatTimeout = 2 * heartbeatInterval ∧
      (60 < now2 - m.lastHeartbeat →
        cid2 ∉ (mgrHeartbeatCheck tr st2 cid2 now2).activeConnections) ∧
      (now2 - m.lastHeartbeat ≤ 60 → tr cid2 = true →
        mgrHeartbeatCheck tr st2 cid2 now2 = st2) := by
  refine ⟨?_, ?_, rfl, rfl, rfl, ?_, ?_⟩
  · intro hle
    have hnotmem : cid ∉ sweepTimedOut st now := by
      intro hmem
      obtain ⟨c', hm', hf'⟩ := (mem_sweepTimedOut st now cid).mp hmem
      have hcc := hc.symm.trans (lookupM_eq_of_mem_nodup _ _ _ hnd hm')
      obtain rfl : c = c' := Option.some.inj hcc
      exact absurd hf' (not_lt.mpr hle)
    unfold heartbeatSweep
    rw [foldl_wsDisconnect_not_mem _ _ _ hnotmem]
    exact hc
  · intro hgt
    have hmem : cid ∈ sweepTimedOut st now :=
      (mem_sweepTimedOut st now cid).mpr ⟨c, lookupM_mem _ _ _ hc, hgt⟩
    unfold heartbeatSweep
    exact foldl_wsDisconnect_mem _ _ _ hmem
  · intro hgt
    unfold mgrHeartbeatCheck
    rw [if_pos hact, hmeta]
    dsimp only
    rw [if_pos hgt]
    exact mgrDisconnect_not_active st2 cid2
  · intro hle htr
    unfold mgrHeartbeatCheck
    rw [if_pos hact, hmeta]
    dsimp only
    rw [if_neg (not_lt.mpr hle)]
    unfold mgrSend
    rw [if_pos hact, htr]
    simp

/-- C2 witness: with no liveness update since time 0, `cidA` survives the sweep at
time 60 and is evicted by the sweep at time 100; the manager check at time 100 also
evicts it. -/
theorem heartbeat_eviction_witness :
    lookupM (heartbeatSweep exSt 60).connections cidA = some connA ∧
      lookupM (heartbeatSweep exSt 100).connections cidA = none ∧
      cidA ∉ (mgrHeartbeatCheck trOk exMgr cidA 100).activeConnections := by
  have hmeta : lookupM exMgr.connectionMetadata cidA =
      some { sessionId := sidS, userId := some uidU, lastHeartbeat := 0 } := by decide
  have hnd : keysNodup exSt.connections := by unfold keysNodup; decide
  refine ⟨?_, ?_, ?_⟩
  · exact (heartbeat_eviction_exact exSt 60 cidA connA hnd (by decide) trOk
      exMgr cidA _ 100 (by decide) hmeta).1 (by decide)
  · exact (heartbeat_eviction_exact exSt 100 cidA connA hnd (by decide) trOk
      exMgr cidA _ 100 (by decide) hmeta).2.1 (by decide)
  · exact (heartbeat_eviction_exact exSt 100 cidA connA hnd (by decide) trOk
      exMgr cidA _ 100 (by decide) hmeta).2.2.2.2.2.1 (by decide)

/-- C1: for a chat-send turn on session `sid`, every resulting event — the single
`chat_response` in normal mode, or each `chat_stream` chunk of a completed stream —
is delivered to every connection subscribed to the session at the time of the turn,
including the sender (whom the handler subscribes first), whenever the subscriber is
still reachable (registered, active, transport up: delivery is best-effort). -/
theorem chat_turn_broadcasts_to_all_subscribers
    (tr : String → Bool) (st : WsState) (cid sid : String) (c : WSConn)
    (res : CollabResult)
    (hc : lookupM st.connections cid = some c)
    (hgood : ∀ cid' ∈ subsAfter st cid sid,
      goodPeer tr (subscribeSession st cid sid).1 cid' = true) :
    cid ∈ subsAfter st cid sid ∧
      ∀ e ∈ turnEvents sid res, ∀ cid' ∈ subsAfter st cid sid,
        (cid', e) ∈ (handleChatMessage tr st cid sid res).2 := by
  refine ⟨mem_subsAfter_self st cid sid c hc, ?_⟩
  intro e he cid' hcid'
  cases res with
  | respOk content =>
    simp only [turnEvents, List.mem_singleton] at he
    subst he
    unfold handleChatMessage
    dsimp only
    rw [broadcastToSession_of_goodPeers tr _ sid _ hgood]
    exact List.mem_map.mpr ⟨cid', hcid', rfl⟩
  | respErr e' => simp [turnEvents] at he
  | streamRun chunks raised =>
    cases raised with
    | some e' => simp [turnEvents] at he
    | none =>
      simp only [turnEvents] at he
      obtain ⟨ch, hch, rfl⟩ := List.mem_map.mp he
      unfold handleChatMessage
      dsimp only
      exact foldl_streamStep_all tr sid chunks _ [] hgood ch hch cid' hcid'

/-- C1 witness: on the two-subscriber registry, the non-sender `cidB` receives the
`chat_response` of a turn sent by `cidA`. -/
theorem chat_turn_broadcasts_witness :
    (cidB, OutMsg.chatResponse sidS bodyHello) ∈
      (handleChatMessage trOk exSt cidA sidS (.respOk bodyHello)).2 := by
  have h := chat_turn_broadcasts_to_all_subscribers trOk exSt cidA sidS connA
    (.respOk bodyHello) (by decide) (by decide)
  exact h.2 _ (by decide) cidB (by decide)

/-- C9: handling a `chat_message` subscribes the sender to the message's session
before the Chat Collaborator is invoked: at invocation time the sender is in the
session's subscriber index and the session is in the sender's subscription set, even
with no prior explicit subscribe; consequently a successful normal-mode turn
delivers the `chat_response` to the sender itself. -/
theorem chat_subscribes_sender_first
    (tr : String → Bool) (st : WsState) (cid sid : String) (c : WSConn)
    (content : String)
    (hc : lookupM st.connections cid = some c)
    (hgood : ∀ cid' ∈ subsAfter st cid sid,
      goodPeer tr (subscribeSession st cid sid).1 cid' = true) :
    cid ∈ subsAfter st cid sid ∧
      (∃ c', lookupM (subscribeSession st cid sid).1.connections cid = some c' ∧
        sid ∈ c'.subscribedSessions) ∧
      (cid, OutMsg.chatResponse sid content) ∈
        (handleChatMessage tr st cid sid (.respOk content)).2 := by
  refine ⟨mem_subsAfter_self st cid sid c hc,
    ⟨_, subsAfter_subscribed st cid sid c hc, mem_insertS_self _ _⟩, ?_⟩
  unfold handleChatMessage
  dsimp only
  rw [broadcastToSession_of_goodPeers tr _ sid _ hgood]
  exact List.mem_map.mpr ⟨cid, mem_subsAfter_self st cid sid c hc, rfl⟩

/-- C9 witness: a sender that never sent an explicit subscribe request is still in
the subscriber set when the turn's result is broadcast, and receives its own turn's
reply. -/
theorem chat_subscribes_sender_witness :
    cidA ∈ subsAfter exStFresh cidA sidS ∧
      (cidA, OutMsg.chatResponse sidS bodyHello) ∈
        (handleChatMessage trOk exStFresh cidA sidS (.respOk bodyHello)).2 := by
  have h := chat_subscribes_sender_first trOk exStFresh cidA sidS connFresh bodyHello
    (by decide) (by decide)
  exact ⟨h.1, h.2.2⟩

/-- C6 counterexample: on a stream-mode turn whose Chat Collaborator raises, the
non-originating subscriber `cidB` does NOT receive zero events for the failed turn —
the collaborator's error-text chunk is broadcast to it as a `chat_stream` event
(with `is_complete = true`), so exactly one event reaches `cidB`. -/
theorem chat_error_turn_peer_receives_event :
    (handleChatMessage trOk exSt cidA sidS failStream).2.filter
        (fun q => q.1 = cidB) =
      [(cidB, OutMsg.chatStream sidS errBoom true true)] ∧
      ((handleChatMessage trOk exSt cidA sidS failStream).2.filter
        (fun q => q.1 = cidB)).length ≠ 0 := by
  constructor <;> decide

/-- C6 (amended): when the Chat Collaborator raises before producing any reply
(normal mode), the originator receives exactly one `chat_error` event and every
other connection receives zero events for that turn; and for every turn of any mode,
a `chat_error` event is only ever delivered to the originator — never broadcast —
although on a failing stream the subscribers may already have received the chunks
yielded before the raise (including the collaborator's error-text chunk). -/
theorem chat_error_unicast_only
    (tr : String → Bool) (st : WsState) (cid sid : String) (e : String)
    (res : CollabResult)
    (hgoodSender : goodPeer tr (subscribeSession st cid sid).1 cid = true) :
    (handleChatMessage tr st cid sid (.respErr e)).2 = [(cid, .chatError e)] ∧
      ∀ q ∈ (handleChatMessage tr st cid sid res).2,
        isChatErr q.2 = true → q.1 = cid := by
  constructor
  · unfold handleChatMessage
    dsimp only
    rw [wsSend_of_goodPeer tr _ cid hgoodSender]
    simp
  · intro q hq hqe
    cases res with
    | respOk content =>
      unfold handleChatMessage at hq
      dsimp only at hq
      have hm := broadcastToSession_mem tr _ sid _ none q hq
      rw [hm.1] at hqe
      simp [isChatErr] at hqe
    | respErr e' =>
      unfold handleChatMessage at hq
      dsimp only at hq
      cases hw : (wsSend tr (subscribeSession st cid sid).1 cid).2 with
      | false => rw [hw] at hq; simp at hq
      | true =>
        rw [hw] at hq
        simp at hq
        rw [hq]
    | streamRun chunks raised =>
      unfold handleChatMessage at hq
      dsimp only at hq
      cases raised with
      | none =>
        rcases foldl_streamStep_mem tr sid chunks _ [] q hq with h | ⟨ch, hch, hm⟩
        · simp at h
        · rw [hm] at hqe
          simp [streamMsg, isChatErr] at hqe
      | some e' =>
        dsimp only at hq
        rcases List.mem_append.mp hq with h | h
        · rcases foldl_streamStep_mem tr sid chunks _ [] q h with h' | ⟨ch, hch, hm⟩
          · simp at h'
          · rw [hm] at hqe
            simp [streamMsg, isChatErr] at hqe
        · cases hw : (wsSend tr (chunks.foldl (streamStep tr sid)
              ((subscribeSession st cid sid).1, [])).1 cid).2 with
          | false => rw [hw] at h; simp at h
          | true =>
            rw [hw] at h
            simp at h
            rw [h]

/-- C6 witness: a normal-mode collaborator failure yields exactly one `chat_error`, 
delivered to the originator only. -/
theorem chat_error_unicast_witness :
    (handleChatMessage trOk exSt cidA sidS (.respErr errBoom)).2 =
      [(cidA, .chatError errBoom)] := by
  have h := chat_error_unicast_only trOk exSt cidA sidS errBoom (.respErr errBoom)
    (by decide)
  exact h.1

theorem unsubscribeSession_of_some (st : WsState) (cid sid : String) (c : WSConn)
    (hc : lookupM st.connections cid = some c) :
    (unsubscribeSession st cid sid).1 =
      { st with
        sessionConnections := removeFromSetEntry st.sessionConnections sid cid,
        connections :=
          insertM st.connections cid
            { c with subscribedSessions := eraseS c.subscribedSessions sid } } := by
  unfold unsubscribeSession
  rw [hc]

theorem noEmpty_wsConnect (tr : String → Bool) (acceptOk : Bool) (st : WsState)
    (cid : String) (authUser tok : Option String) (now : Nat)
    (hU : noEmptyIdx st.userConnections) (hS : noEmptyIdx st.sessionConnections) :
    noEmptyIdx (wsConnect tr acceptOk st cid authUser tok now).1.userConnections ∧
      noEmptyIdx (wsConnect tr acceptOk st cid authUser tok now).1.sessionConnections := by
  unfold wsConnect
  cases ha : acceptOk with
  | false => simp only [Bool.false_eq_true, if_false]; exact ⟨hU, hS⟩
  | true =>
    rw [if_pos rfl]
    dsimp only
    cases hau : authUser with
    | none =>
      dsimp only
      constructor
      · rw [(wsSend_indices tr _ cid).1]; exact hU
      · rw [(wsSend_indices tr _ cid).2]; exact hS
    | some u =>
      dsimp only
      constructor
      · rw [(wsSend_indices tr _ cid).1]
        exact noEmptyIdx_insertM _ _ _ hU (insertS_ne_nil _ _)
      · rw [(wsSend_indices tr _ cid).2]; exact hS

theorem noEmpty_wsDisconnect (st : WsState) (cid : String)
    (hU : noEmptyIdx st.userConnections) (hS : noEmptyIdx st.sessionConnections) :
    noEmptyIdx (wsDisconnect st cid).userConnections ∧
      noEmptyIdx (wsDisconnect st cid).sessionConnections := by
  cases hc : lookupM st.connections cid with
  | none => rw [wsDisconnect_of_none st cid hc]; exact ⟨hU, hS⟩
  | some c =>
    rw [wsDisconnect_of_some st cid c hc]
    constructor
    · dsimp only
      cases hu : c.userId with
      | none => exact hU
      | some u => exact noEmptyIdx_removeFromSetEntry _ _ _ hU
    · dsimp only
      exact noEmptyIdx_foldl_remove _ _ _ hS

theorem noEmpty_subscribe (st : WsState) (cid sid : String)
    (hU : noEmptyIdx st.userConnections) (hS : noEmptyIdx st.sessionConnections) :
    noEmptyIdx (subscribeSession st cid sid).1.userConnections ∧
      noEmptyIdx (subscribeSession st cid sid).1.sessionConnections := by
  cases hc : lookupM st.connections cid with
  | none => unfold subscribeSession; rw [hc]; exact ⟨hU, hS⟩
  | some c =>
    rw [subscribeSession_of_some st cid sid c hc]
    exact ⟨hU, noEmptyIdx_insertM _ _ _ hS (insertS_ne_nil _ _)⟩

theorem noEmpty_unsubscribe (st : WsState) (cid sid : String)
    (hU : noEmptyIdx st.userConnections) (hS : noEmptyIdx st.sessionConnections) :
    noEmptyIdx (unsubscribeSession st cid sid).1.userConnections ∧
      noEmptyIdx (unsubscribeSession st cid sid).1.sessionConnections := by
  cases hc : lookupM st.connections cid with
  | none => unfold unsubscribeSession; rw [hc]; exact ⟨hU, hS⟩
  | some c =>
    rw [unsubscribeSession_of_some st cid sid c hc]
    exact ⟨hU, noEmptyIdx_removeFromSetEntry _ _ _ hS⟩

theorem noEmpty_sessionDelete (tr : String → Bool) (st : WsState) (cid sid : String)
    (res : Except String Bool)
    (hU : noEmptyIdx st.userConnections) (hS : noEmptyIdx st.sessionConnections) :
    noEmptyIdx (handleSessionDelete tr st cid sid res).1.userConnections ∧
      noEmptyIdx (handleSessionDelete tr st cid sid res).1.sessionConnections := by
  cases res with
  | error e =>
    unfold handleSessionDelete
    dsimp only
    constructor
    · rw [(wsSend_indices tr st cid).1]; exact hU
    · rw [(wsSend_indices tr st cid).2]; exact hS
  | ok b =>
    cases b with
    | false =>
      unfold handleSessionDelete
      dsimp only
      constructor
      · rw [(wsSend_indices tr st cid).1]; exact hU
      · rw [(wsSend_indices tr st cid).2]; exact hS
    | true =>
      unfold handleSessionDelete
      dsimp only
      constructor
      · show noEmptyIdx
          (broadcastToSession tr st sid (.sessionDeleted sid) none).1.userConnections
        rw [(broadcastToSession_indices tr st sid (.sessionDeleted sid) none).1]
        exact hU
      · show noEmptyIdx (eraseM
          (broadcastToSession tr st sid (.sessionDeleted sid) none).1.sessionConnections
          sid)
        rw [(broadcastToSession_indices tr st sid (.sessionDeleted sid) none).2]
        exact noEmptyIdx_eraseM _ _ hS

/-- C7: the no-empty-set invariant on the session-subscription index and the
user-connection index is preserved by every registry operation — register,
unregister, subscribe, unsubscribe and the session-delete handler: removing the last
member of a key's set removes the key's entry entirely, and no operation installs an
empty set. -/
theorem indices_never_empty
    (st : WsState) (tr : String → Bool) (acceptOk : Bool) (cid sid : String)
    (authUser tok : Option String) (now : Nat) (res : Except String Bool)
    (hU : noEmptyIdx st.userConnections) (hS : noEmptyIdx st.sessionConnections) :
    (noEmptyIdx (wsConnect tr acceptOk st cid authUser tok now).1.userConnections ∧
      noEmptyIdx (wsConnect tr acceptOk st cid authUser tok now).1.sessionConnections) ∧
    (noEmptyIdx (wsDisconnect st cid).userConnections ∧
      noEmptyIdx (wsDisconnect st cid).sessionConnections) ∧
    (noEmptyIdx (subscribeSession st cid sid).1.userConnections ∧
      noEmptyIdx (subscribeSession st cid sid).1.sessionConnections) ∧
    (noEmptyIdx (unsubscribeSession st cid sid).1.userConnections ∧
      noEmptyIdx (unsubscribeSession st cid sid).1.sessionConnections) ∧
    (noEmptyIdx (handleSessionDelete tr st cid sid res).1.userConnections ∧
      noEmptyIdx (handleSessionDelete tr st cid sid res).1.sessionConnections) :=
  ⟨noEmpty_wsConnect tr acceptOk st cid authUser tok now hU hS,
    noEmpty_wsDisconnect st cid hU hS,
    noEmpty_subscribe st cid sid hU hS,
    noEmpty_unsubscribe st cid sid hU hS,
    noEmpty_sessionDelete tr st cid sid res hU hS⟩

/-- C7 witness: disconnecting `cidA` (the only connection of user `uidU`) removes
the user's entry entirely rather than leaving an empty set. -/
theorem indices_never_empty_witness :
    noEmptyIdx (wsDisconnect exSt cidA).userConnections ∧
      noEmptyIdx (wsDisconnect exSt cidA).sessionConnections := by
  have hU : noEmptyIdx exSt.userConnections := by unfold noEmptyIdx; decide
  have hS : noEmptyIdx exSt.sessionConnections := by unfold noEmptyIdx; decide
  exact (indices_never_empty exSt trOk true cidA sidS (some uidU) none 0
    (Except.ok true) hU hS).2.1

theorem wsSend_registered (tr : String → Bool) (st : WsState) (cid : String)
    (c : WSConn) (hc : lookupM st.connections cid = some c) :
    ∃ c', lookupM (wsSend tr st cid).1.connections cid = some c' := by
  unfold wsSend
  rw [hc]
  dsimp only
  cases hb : c.isActive with
  | false => exact ⟨c, by simpa using hc⟩
  | true =>
    cases ht : tr cid with
    | true => exact ⟨c, by simpa using hc⟩
    | false =>
      refine ⟨{ c with isActive := false }, ?_⟩
      simp only [Bool.false_eq_true, if_false, if_pos rfl]
      exact lookupM_insertM_self _ _ _

/-- C8 counterexample: on a failing transport accept, neither `connect`
implementation raises — both catch the exception internally and return a failure
value (`False` / `None`) with the state unchanged — so `register` does not fail with
a raised `HandshakeError` when the transport-level accept fails. -/
theorem register_no_raise_counterexample :
    mgrConnectResult trOk false exMgr cidA sidS none 0 = .ret (exMgr, false) ∧
      wsConnectResult trOk false exSt cidA none none 0 = .ret (exSt, false) ∧
      (¬ ∃ e, mgrConnectResult trOk false exMgr cidA sidS none 0 = .raised e) ∧
      (¬ ∃ e, wsConnectResult trOk false exSt cidA none none 0 = .raised e) := by
  refine ⟨rfl, rfl, ?_, ?_⟩
  · rintro ⟨e, he⟩
    exact PyResult.noConfusion he
  · rintro ⟨e, he⟩
    exact PyResult.noConfusion he

/-- C8 (amended): `register` signals a transport accept failure by its return value
— `False` (manager) or `None` (service) — exactly when the accept fails, closing the
socket itself and never raising (the embedded calls always return normally); on
success it inserts the new connection into the registry structures under the given
fresh identifier and returns success. -/
theorem register_failure_by_return
    (tr : String → Bool) (acceptOk : Bool) (st2 : MgrState) (cid sid : String)
    (uid : Option String) (now : Nat) (st : WsState) (authUser tok : Option String) :
    mgrConnectResult tr acceptOk st2 cid sid uid now =
        .ret (mgrConnect tr acceptOk st2 cid sid uid now) ∧
      (mgrConnect tr acceptOk st2 cid sid uid now).2 = acceptOk ∧
      (acceptOk = false → (mgrConnect tr acceptOk st2 cid sid uid now).1 = st2) ∧
      (acceptOk = true → tr cid = true →
        cid ∈ (mgrConnect tr acceptOk st2 cid sid uid now).1.activeConnections) ∧
      wsConnectResult tr acceptOk st cid authUser tok now =
        .ret (wsConnect tr acceptOk st cid authUser tok now) ∧
      (wsConnect tr acceptOk st cid authUser tok now).2 = acceptOk ∧
      (acceptOk = false → (wsConnect tr acceptOk st cid authUser tok now).1 = st) ∧
      (acceptOk = true →
        ∃ c', lookupM (wsConnect tr acceptOk st cid authUser tok now).1.connections cid
          = some c') := by
  refine ⟨rfl, ?_, ?_, ?_, rfl, ?_, ?_, ?_⟩
  · cases ha : acceptOk <;> simp [mgrConnect]
  · intro h
    subst h
    simp [mgrConnect]
  · intro ha htr
    subst ha
    unfold mgrConnect mgrSend
    rw [if_pos rfl]
    dsimp only
    rw [if_pos (mem_insertS_self st2.activeConnections cid), htr]
    exact mem_insertS_self st2.activeConnections cid
  · cases ha : acceptOk <;> simp [wsConnect]
  · intro h
    subst h
    simp [wsConnect]
  · intro ha
    subst ha
    unfold wsConnect
    rw [if_pos rfl]
    dsimp only
    cases hau : authUser with
    | none =>
      dsimp only
      exact wsSend_registered tr _ cid _ (lookupM_insertM_self _ _ _)
    | some u =>
      dsimp only
      exact wsSend_registered tr _ cid _ (lookupM_insertM_self _ _ _)

/-- C8 witness: a successful accept registers the new connection and returns
success. -/
theorem register_failure_by_return_witness :
    (mgrConnect trOk true exMgr cidB sidS none 0).2 = true ∧
      cidB ∈ (mgrConnect trOk true exMgr cidB sidS none 0).1.activeConnections := by
  have h := register_failure_by_return trOk true exMgr cidB sidS none 0 exSt none none
  exact ⟨h.2.1, h.2.2.2.1 rfl rfl⟩
